import Mathlib

/-!
Verification of the DQN driving subsystem of the racing repository
(source file src/dqn.rs): replay buffer ring semantics, epsilon-greedy
policy, reward shaping, epsilon decay/reset, tick scheduling and the
action-encoding table.  Machine floats (f32/f64) are modelled as exact
rationals; each numeric literal below is the exact value of the
corresponding source literal (FRAC_PI_2 is the exact value of the f32
constant std::f32::consts::FRAC_PI_2 = 13176795 / 2^23).
-/

namespace RacingDqn

/-- Source constant STEP_DURATION = 0.5 (seconds per decision step). -/
def STEP_DURATION : ℚ := 1 / 2

/-- Source constant DECAY = 0.001 (epsilon decrement per training step). -/
def DECAY : ℚ := 1 / 1000

/-- Source constant SYNC_INTERVAL_STEPS = 100. -/
def SYNC_INTERVAL_STEPS : ℤ := 100

/-- Source constant BATCH_SIZE = 64. -/
def BATCH_SIZE : ℕ := 64

/-- Source constant BUFFER_SIZE = 500000. -/
def BUFFER_SIZE : ℕ := 500000

/-- Source constant ACTION_SIZE = 8. -/
def ACTION_SIZE : ℕ := 8

/-- Exact rational value of the f32 constant std::f32::consts::FRAC_PI_2. -/
def FRAC_PI_2 : ℚ := 13176795 / 8388608

/-- Observation vector: progress.meters, progress.angle, speed, then the
sensor readings (type Observation = [f32; STATE_SIZE] in the source). -/
abbrev Obs := List ℚ

/-- One stored transition: (state, action, reward, next_state). -/
abbrev Transition := Obs × ℕ × ℚ × Obs

/-- Shallow embedding of struct ReplayBuffer: four parallel vectors plus
the insertion counter i. -/
structure ReplayBuffer where
  state : List Obs
  action : List ℕ
  reward : List ℚ
  next_state : List Obs
  i : ℕ

/-- ReplayBuffer::new(). -/
def ReplayBuffer.new : ReplayBuffer := ⟨[], [], [], [], 0⟩

/-- ReplayBuffer::len(): length of the state vector. -/
def ReplayBuffer.len (rb : ReplayBuffer) : ℕ := rb.state.length

/-- ReplayBuffer::store, with the capacity BUFFER_SIZE generalised to a
parameter C: pushes while the buffer is not full, afterwards overwrites
ring slot i % C; always increments i. -/
def ReplayBuffer.store (C : ℕ) (rb : ReplayBuffer) (s : Obs) (a : ℕ) (r : ℚ)
    (ns : Obs) : ReplayBuffer :=
  let i := rb.i % C
  if rb.len < C then
    ⟨rb.state ++ [s], rb.action ++ [a], rb.reward ++ [r], rb.next_state ++ [ns], rb.i + 1⟩
  else
    ⟨rb.state.set i s, rb.action.set i a, rb.reward.set i r, rb.next_state.set i ns, rb.i + 1⟩

/-- The transition held in slot j of the buffer (none when out of range). -/
def ReplayBuffer.slotAt (rb : ReplayBuffer) (j : ℕ) : Option Transition :=
  match rb.state[j]?, rb.action[j]?, rb.reward[j]?, rb.next_state[j]? with
  | some s, some a, some r, some ns => some (s, a, r, ns)
  | _, _, _, _ => none

/-- Structural invariant of the buffer: the four vectors are aligned and
the length is min(insertions, capacity). -/
def wellFormed (C : ℕ) (rb : ReplayBuffer) : Prop :=
  rb.state.length = min rb.i C ∧ rb.action.length = rb.state.length ∧
    rb.reward.length = rb.state.length ∧ rb.next_state.length = rb.state.length

/-- The buffer obtained by storing transitions ts 0, ts 1, ..., ts (N-1)
in order into a fresh buffer of capacity C. -/
def storeSeq (C : ℕ) (ts : ℕ → Transition) : ℕ → ReplayBuffer
  | 0 => ReplayBuffer.new
  | n + 1 => (storeSeq C ts n).store C (ts n).1 (ts n).2.1 (ts n).2.2.1 (ts n).2.2.2

theorem store_i (C : ℕ) (rb : ReplayBuffer) (s : Obs) (a : ℕ) (r : ℚ) (ns : Obs) :
    (rb.store C s a r ns).i = rb.i + 1 := by
  simp only [ReplayBuffer.store]
  split <;> rfl

theorem min_lt_right {i C : ℕ} (h : min i C < C) : min i C = i := by omega

theorem store_wf {C : ℕ} {rb : ReplayBuffer} (h : wellFormed C rb)
    (s : Obs) (a : ℕ) (r : ℚ) (ns : Obs) :
    wellFormed C (rb.store C s a r ns) := by
  obtain ⟨h1, h2, h3, h4⟩ := h
  simp only [ReplayBuffer.store, wellFormed]
  split
  · rename_i hlt
    simp only [List.length_append, List.length_singleton, List.length_set]
    unfold ReplayBuffer.len at hlt
    rw [h1] at hlt ⊢
    omega
  · rename_i hge
    simp only [List.length_set]
    unfold ReplayBuffer.len at hge
    rw [h1] at hge ⊢
    omega

theorem store_len {C : ℕ} {rb : ReplayBuffer} (h : wellFormed C rb)
    (s : Obs) (a : ℕ) (r : ℚ) (ns : Obs) :
    (rb.store C s a r ns).len = min (rb.i + 1) C := by
  have hw := store_wf h s a r ns
  have hi := store_i C rb s a r ns
  unfold ReplayBuffer.len
  rw [hw.1, hi]

theorem store_slot_new {C : ℕ} {rb : ReplayBuffer} (h : wellFormed C rb)
    (hC : 0 < C) (s : Obs) (a : ℕ) (r : ℚ) (ns : Obs) :
    (rb.store C s a r ns).slotAt (rb.i % C) = some (s, a, r, ns) := by
  obtain ⟨h1, h2, h3, h4⟩ := h
  simp only [ReplayBuffer.store]
  split
  · rename_i hlt
    unfold ReplayBuffer.len at hlt
    have hiC : rb.i < C := by rw [h1] at hlt; omega
    have hmod : rb.i % C = rb.i := Nat.mod_eq_of_lt hiC
    have hlen : rb.state.length = rb.i := by rw [h1]; omega
    have e1 : (rb.state ++ [s])[rb.i]? = some s := by
      rw [← hlen]; exact List.getElem?_concat_length _ _
    have e2 : (rb.action ++ [a])[rb.i]? = some a := by
      rw [show rb.i = rb.action.length by omega]; exact List.getElem?_concat_length _ _
    have e3 : (rb.reward ++ [r])[rb.i]? = some r := by
      rw [show rb.i = rb.reward.length by omega]; exact List.getElem?_concat_length _ _
    have e4 : (rb.next_state ++ [ns])[rb.i]? = some ns := by
      rw [show rb.i = rb.next_state.length by omega]; exact List.getElem?_concat_length _ _
    simp only [ReplayBuffer.slotAt, hmod, e1, e2, e3, e4]
  · rename_i hge
    unfold ReplayBuffer.len at hge
    have hlen : rb.state.length = C := by rw [h1]; omega
    have hj : rb.i % C < C := Nat.mod_lt _ hC
    have e1 : (rb.state.set (rb.i % C) s)[rb.i % C]? = some s :=
      List.getElem?_set_self (by omega)
    have e2 : (rb.action.set (rb.i % C) a)[rb.i % C]? = some a :=
      List.getElem?_set_self (by omega)
    have e3 : (rb.reward.set (rb.i % C) r)[rb.i % C]? = some r :=
      List.getElem?_set_self (by omega)
    have e4 : (rb.next_state.set (rb.i % C) ns)[rb.i % C]? = some ns :=
      List.getElem?_set_self (by omega)
    simp only [ReplayBuffer.slotAt, e1, e2, e3, e4]

theorem store_slot_other {C : ℕ} {rb : ReplayBuffer} (h : wellFormed C rb)
    {j : ℕ} (hj : j ≠ rb.i % C) (s : Obs) (a : ℕ) (r : ℚ) (ns : Obs) :
    (rb.store C s a r ns).slotAt j = rb.slotAt j := by
  obtain ⟨h1, h2, h3, h4⟩ := h
  simp only [ReplayBuffer.store]
  split
  · rename_i hlt
    unfold ReplayBuffer.len at hlt
    have hiC : rb.i < C := by rw [h1] at hlt; omega
    have hmod : rb.i % C = rb.i := Nat.mod_eq_of_lt hiC
    have hlen : rb.state.length = rb.i := by rw [h1]; omega
    rw [hmod] at hj
    simp only [ReplayBuffer.slotAt]
    rcases Nat.lt_or_ge j rb.i with hlt2 | hge2
    · rw [List.getElem?_append_left (by omega), List.getElem?_append_left (by omega),
        List.getElem?_append_left (by omega), List.getElem?_append_left (by omega)]
    · have hgt : rb.i < j := by omega
      rw [List.getElem?_eq_none
          (by simp only [List.length_append, List.length_singleton]; omega),
        List.getElem?_eq_none
          (by simp only [List.length_append, List.length_singleton]; omega),
        List.getElem?_eq_none
          (by simp only [List.length_append, List.length_singleton]; omega),
        List.getElem?_eq_none
          (by simp only [List.length_append, List.length_singleton]; omega),
        List.getElem?_eq_none (by omega), List.getElem?_eq_none (by omega),
        List.getElem?_eq_none (by omega), List.getElem?_eq_none (by omega)]
  · simp only [ReplayBuffer.slotAt]
    rw [List.getElem?_set_ne (fun he => hj he.symm), List.getElem?_set_ne (fun he => hj he.symm),
      List.getElem?_set_ne (fun he => hj he.symm), List.getElem?_set_ne (fun he => hj he.symm)]

theorem storeSeq_i (C : ℕ) (ts : ℕ → Transition) (N : ℕ) : (storeSeq C ts N).i = N := by
  induction N with
  | zero => rfl
  | succ n ih => rw [storeSeq, store_i, ih]

theorem storeSeq_wf (C : ℕ) (ts : ℕ → Transition) (N : ℕ) :
    wellFormed C (storeSeq C ts N) := by
  induction N with
  | zero => exact ⟨by simp [storeSeq, ReplayBuffer.new], rfl, rfl, rfl⟩
  | succ n ih => exact store_wf ih _ _ _ _

theorem storeSeq_len (C : ℕ) (ts : ℕ → Transition) (N : ℕ) :
    (storeSeq C ts N).len = min N C := by
  have h := (storeSeq_wf C ts N).1
  have hi := storeSeq_i C ts N
  unfold ReplayBuffer.len
  rw [h, hi]

theorem mod_ne_of_between {n N C : ℕ} (h1 : n < N) (h2 : N < n + C) : n % C ≠ N % C := by
  intro h
  have hd : C ∣ N - n := (Nat.modEq_iff_dvd' (le_of_lt h1)).mp h
  have hle : C ≤ N - n := Nat.le_of_dvd (by omega) hd
  omega

theorem storeSeq_slot {C : ℕ} (hC : 0 < C) (ts : ℕ → Transition) :
    ∀ N n : ℕ, n < N → N ≤ n + C →
      (storeSeq C ts N).slotAt (n % C) = some (ts n) := by
  intro N
  induction N with
  | zero => intro n h; omega
  | succ m ih =>
    intro n hn hNC
    have hwf := storeSeq_wf C ts m
    have hi := storeSeq_i C ts m
    rcases Nat.lt_succ_iff_lt_or_eq.mp hn with hlt | heq
    · have hne : n % C ≠ (storeSeq C ts m).i % C := by
        rw [hi]
        exact mod_ne_of_between hlt (by omega)
      rw [storeSeq, store_slot_other hwf hne]
      exact ih n hlt (by omega)
    · subst heq
      rw [storeSeq, show n % C = (storeSeq C ts n).i % C by rw [hi]]
      exact store_slot_new hwf hC _ _ _ _

/-- Claim C1: for every capacity C > 0 and any sequence of N stores into a
fresh buffer, every store succeeds (store is a total function), increments
the insertion counter by exactly one and writes its transition into ring
slot (insertions mod C); after N stores the length is min(N, C), and every
one of the most recent min(N, C) transitions sits in its ring slot, so for
N > C the buffer holds exactly the most recent C transitions, the oldest
having been overwritten first. -/
theorem c1_replay_buffer_ring (C : ℕ) (hC : 0 < C) (ts : ℕ → Transition) (N : ℕ) :
    (storeSeq C ts N).i = N ∧
    (storeSeq C ts N).len = min N C ∧
    (∀ k : ℕ, (storeSeq C ts (k + 1)).i = (storeSeq C ts k).i + 1 ∧
      (storeSeq C ts (k + 1)).slotAt ((storeSeq C ts k).i % C) = some (ts k)) ∧
    (∀ n : ℕ, n < N → N ≤ n + C → (storeSeq C ts N).slotAt (n % C) = some (ts n)) := by
  refine ⟨storeSeq_i C ts N, storeSeq_len C ts N, ?_, fun n h1 h2 => storeSeq_slot hC ts N n h1 h2⟩
  intro k
  refine ⟨by rw [storeSeq, store_i], ?_⟩
  rw [show (storeSeq C ts k).i % C = k % C by rw [storeSeq_i]]
  exact storeSeq_slot hC ts (k + 1) k (by omega) (by omega)

/-- Concrete transition sequence used by witnesses. -/
def tsW : ℕ → Transition := fun n => ([(n : ℚ)], n, (n : ℚ), [])

/-- Witness for c1_replay_buffer_ring at C = 2, N = 5. -/
theorem c1_replay_buffer_ring_witness :
    0 < 2 ∧
    ((storeSeq 2 tsW 5).i = 5 ∧
      (storeSeq 2 tsW 5).len = min 5 2 ∧
      (∀ k : ℕ, (storeSeq 2 tsW (k + 1)).i = (storeSeq 2 tsW k).i + 1 ∧
        (storeSeq 2 tsW (k + 1)).slotAt ((storeSeq 2 tsW k).i % 2) = some (tsW k)) ∧
      (∀ n : ℕ, n < 5 → 5 ≤ n + 2 → (storeSeq 2 tsW 5).slotAt (n % 2) = some (tsW n))) :=
  ⟨by decide, c1_replay_buffer_ring 2 (by decide) tsW 5⟩

/-- Non-collision branch of the reward computation in dqn_system
(lines 183-200 of dqn.rs): computes the shaped reward and the possibly
reset epsilon.  Mirrors, in order: dprogress, angle_direction_unit,
direction_flip, the sign flip of dprogress, the epsilon reset, and the
match on dprogress / STEP_DURATION. -/
def rewardStep (min_eps max_eps eps prev_progress meters angle : ℚ) : ℚ × ℚ :=
  let dprogress := meters - prev_progress
  let dp := if 0 < dprogress ∧ 1 - angle / FRAC_PI_2 < 0 then -dprogress else dprogress
  let eps1 := if 1 - angle / FRAC_PI_2 < 0 ∧ eps ≤ min_eps then max_eps else eps
  let x := dp / STEP_DURATION
  let r := if 0 < x ∧ x < 1 / 5 then (0 : ℚ) else if 0 < x then x / 15 else x
  (r, eps1)

/-- Modelled from the claim wording of C3 (refinement comparison only):
the sign of delta_progress is flipped whenever delta_progress is positive
and the heading deviation is beyond 90 degrees on either side
(angle > pi/2 or angle < -pi/2); then the same thresholded shaping as the
code. -/
def claimRewardC3 (prev_progress meters angle : ℚ) : ℚ :=
  let delta := meters - prev_progress
  let d :=
    if 0 < delta ∧ (FRAC_PI_2 < angle ∨ angle < -FRAC_PI_2) then -delta else delta
  let rate := d / STEP_DURATION
  if 0 < rate ∧ rate < 1 / 5 then (0 : ℚ) else if 0 < rate then rate / 15 else rate

/-- Amended C3 reward description: as claimRewardC3 but the flip fires
only for deviations beyond +90 degrees (angle > pi/2), exactly as the
source condition 1 - angle/FRAC_PI_2 < 0. -/
def amendedRewardC3 (prev_progress meters angle : ℚ) : ℚ :=
  let delta := meters - prev_progress
  let d := if 0 < delta ∧ FRAC_PI_2 < angle then -delta else delta
  let rate := d / STEP_DURATION
  if 0 < rate ∧ rate < 1 / 5 then (0 : ℚ) else if 0 < rate then rate / 15 else rate

/-- Iterator::position of the Rust source: index of the first element
satisfying the predicate. -/
def position (p : ℚ → Prop) [DecidablePred p] : List ℚ → Option ℕ
  | [] => none
  | a :: as => if p a then some 0 else (position p as).map (· + 1)

/-- max_last_dim on a rank-1 tensor: the maximum of the entries (none for
the empty list, which cannot arise for a rank-1 tensor of size 8). -/
def listMax : List ℚ → Option ℚ
  | [] => none
  | a :: as => some (as.foldl max a)

/-- Greedy action selection of dqn_system (lines 207-219): the first index
whose Q-value is at least the maximum Q-value; none models the panic!()
branch taken when no such index exists. -/
def chooseGreedy (qs : List ℚ) : Option ℕ :=
  match listMax qs with
  | none => none
  | some m => position (fun q => m ≤ q) qs

/-- gas output for an action index (lines 293-297). -/
def actionGas (a : ℕ) : ℚ := if a = 0 ∨ a = 4 ∨ a = 5 then 1 else 0

/-- brake output for an action index (lines 298-302). -/
def actionBrake (a : ℕ) : ℚ := if a = 1 ∨ a = 6 ∨ a = 7 then 1 else 0

/-- left steering component for an action index (lines 303-307). -/
def actionLeft (a : ℕ) : ℚ := if a = 2 ∨ a = 4 ∨ a = 6 then 1 else 0

/-- right steering component for an action index (lines 308-312). -/
def actionRight (a : ℕ) : ℚ := if a = 3 ∨ a = 5 ∨ a = 7 then 1 else 0

/-- car.steering = -left + right (line 315). -/
def actionSteer (a : ℕ) : ℚ := -actionLeft a + actionRight a

/-- Per-agent scratch state (struct CarDqn). -/
structure CarDqn where
  prev_obs : Obs
  prev_action : ℕ
  prev_reward : ℚ
  prev_progress : ℚ

/-- Per-tick inputs read from the simulation: progress, speed, sensors and
the colliding-entity name flags (true = name contains ASSET_ROAD). -/
structure TickInput where
  meters : ℚ
  angle : ℚ
  mps : ℚ
  sensors : List ℚ
  collisions : List Bool

/-- The crashed flag (lines 160-166): true when some colliding entity is
not the road. -/
def crashedOf (inp : TickInput) : Bool := inp.collisions.any (fun isRoad => !isRoad)

/-- The observation assembled by dqn_system (lines 168-176). -/
def obsOf (inp : TickInput) : Obs := inp.meters :: inp.angle :: inp.mps :: inp.sensors

/-- The mutable state touched by dqn_system: DqnResource (with the network
type abstracted to Q), the per-agent CarDqn, and the car actuator outputs. -/
structure SimState (Q : Type) where
  seconds : ℚ
  step : ℤ
  qn : Q
  tqn : Q
  rb : ReplayBuffer
  eps : ℚ
  max_eps : ℚ
  min_eps : ℚ
  carDqn : CarDqn
  gas : ℚ
  brake : ℚ
  steering : ℚ

/-- The reward / epsilon stage of dqn_system (lines 180-201): the crash
branch yields the fixed reward -10 and leaves epsilon alone; the other
branch is rewardStep. -/
def tickRewardEps {Q : Type} (inp : TickInput) (s : SimState Q) : ℚ × ℚ :=
  if crashedOf inp = true then ((-10 : ℚ), s.eps)
  else rewardStep s.min_eps s.max_eps s.eps s.carDqn.prev_progress inp.meters inp.angle

/-- One invocation of dqn_system.  fw abstracts QNetwork::forward (a
length-ACTION_SIZE output per observation); upd abstracts the effect of the
20-epoch SGD loop on the trainable network; now is the simulation time;
r the uniform draw in [0,1); u the raw draw behind gen_range on the
exploration range.  Returns none exactly on the panic!() branch. -/
def dqnSystem {Q : Type} (fw : Q → Obs → Fin ACTION_SIZE → ℚ) (upd : Q → Q)
    (now r : ℚ) (u : ℕ) (inp : TickInput) (s : SimState Q) : Option (SimState Q) :=
  if s.seconds < now then
    let sec1 := now + STEP_DURATION
    let step1 : ℤ := if BATCH_SIZE < s.rb.len then s.step + 1 else s.step
    let obs := obsOf inp
    let re := tickRewardEps inp s
    let actionOpt :=
      if r < re.2 then some (u % (ACTION_SIZE - 1))
      else chooseGreedy (List.ofFn (fw s.qn obs))
    actionOpt.map (fun action =>
      let train := BATCH_SIZE + 1 < s.rb.len
      let qn1 := if train then upd s.qn else s.qn
      let tqn1 := if train ∧ step1 % SYNC_INTERVAL_STEPS = 0 then qn1 else s.tqn
      let eps2 :=
        if train then (if re.2 ≤ s.min_eps then s.min_eps else re.2 - DECAY) else re.2
      let rb1 := s.rb.store BUFFER_SIZE s.carDqn.prev_obs s.carDqn.prev_action re.1 obs
      { seconds := sec1, step := step1, qn := qn1, tqn := tqn1, rb := rb1,
        eps := eps2, max_eps := s.max_eps, min_eps := s.min_eps,
        carDqn := ⟨obs, action, re.1, inp.meters⟩,
        gas := actionGas action, brake := actionBrake action,
        steering := actionSteer action })
  else some s

theorem foldl_max_le (l : List ℚ) : ∀ a : ℚ, a ≤ l.foldl max a ∧ ∀ x ∈ l, x ≤ l.foldl max a := by
  induction l with
  | nil => intro a; exact ⟨le_refl a, by intro x hx; cases hx⟩
  | cons b bs ih =>
    intro a
    have h := ih (max a b)
    refine ⟨le_trans (le_max_left a b) h.1, ?_⟩
    intro x hx
    rcases List.mem_cons.mp hx with hxb | hxs
    · subst hxb; exact le_trans (le_max_right a x) h.1
    · exact h.2 x hxs

theorem foldl_max_mem (l : List ℚ) : ∀ a : ℚ, l.foldl max a = a ∨ l.foldl max a ∈ l := by
  induction l with
  | nil => intro a; exact Or.inl rfl
  | cons b bs ih =>
    intro a
    rcases ih (max a b) with h | h
    · rcases max_choice a b with hm | hm
      · left; rw [List.foldl_cons, h, hm]
      · right; rw [List.foldl_cons, h, hm]; exact List.mem_cons_self b bs
    · right; exact List.mem_cons_of_mem b h

theorem listMax_spec {qs : List ℚ} {m : ℚ} (h : listMax qs = some m) :
    m ∈ qs ∧ ∀ x ∈ qs, x ≤ m := by
  cases qs with
  | nil => cases h
  | cons a as =>
    have hm : m = as.foldl max a := by
      simp only [listMax, Option.some.injEq] at h; exact h.symm
    subst hm
    constructor
    · rcases foldl_max_mem as a with h1 | h1
      · rw [h1]; exact List.mem_cons_self a as
      · exact List.mem_cons_of_mem a h1
    · intro x hx
      rcases List.mem_cons.mp hx with hxa | hxs
      · subst hxa; exact (foldl_max_le as x).1
      · exact (foldl_max_le as a).2 x hxs

theorem position_eq_some {p : ℚ → Prop} [DecidablePred p] :
    ∀ {qs : List ℚ} {i : ℕ}, position p qs = some i →
      i < qs.length ∧ p (qs.getD i 0) ∧ ∀ j, j < i → ¬p (qs.getD j 0) := by
  intro qs
  induction qs with
  | nil => intro i h; cases h
  | cons a as ih =>
    intro i h
    simp only [position] at h
    by_cases hp : p a
    · rw [if_pos hp] at h
      cases h
      exact ⟨Nat.succ_pos _, hp, by intro j hj; omega⟩
    · rw [if_neg hp] at h
      rcases Option.map_eq_some'.mp h with ⟨i', hi', rfl⟩
      obtain ⟨h1, h2, h3⟩ := ih hi'
      refine ⟨by simpa using Nat.succ_lt_succ h1, h2, ?_⟩
      intro j hj
      cases j with
      | zero => exact hp
      | succ j => exact h3 j (by omega)

theorem position_isSome {p : ℚ → Prop} [DecidablePred p] :
    ∀ {qs : List ℚ} {x : ℚ}, x ∈ qs → p x → ∃ i, position p qs = some i := by
  intro qs
  induction qs with
  | nil => intro x hx; cases hx
  | cons a as ih =>
    intro x hx hp
    by_cases hpa : p a
    · exact ⟨0, by simp [position, hpa]⟩
    · rcases List.mem_cons.mp hx with hxa | hxs
      · subst hxa; exact absurd hp hpa
      · obtain ⟨i, hi⟩ := ih hxs hp
        exact ⟨i + 1, by simp [position, hpa, hi]⟩

theorem chooseGreedy_spec {qs : List ℚ} (h : qs ≠ []) :
    ∃ i, chooseGreedy qs = some i ∧ i < qs.length ∧
      (∀ j, j < qs.length → qs.getD j 0 ≤ qs.getD i 0) ∧
      (∀ j, j < i → qs.getD j 0 < qs.getD i 0) := by
  obtain ⟨a, as, rfl⟩ := List.exists_cons_of_ne_nil h
  obtain ⟨hmem, hub⟩ :=
    listMax_spec (show listMax (a :: as) = some (as.foldl max a) from rfl)
  obtain ⟨i, hi⟩ := position_isSome hmem (le_refl _)
  obtain ⟨h1, h2, h3⟩ := position_eq_some hi
  have hgd : (a :: as).getD i 0 = as.foldl max a := by
    have hmem2 : (a :: as).getD i 0 ∈ a :: as := by
      rw [List.getD_eq_getElem _ _ h1]; exact List.getElem_mem h1
    exact le_antisymm (hub _ hmem2) h2
  refine ⟨i, ?_, h1, ?_, ?_⟩
  · simp only [chooseGreedy, listMax, hi]
  · intro j hj
    rw [hgd]
    apply hub
    rw [List.getD_eq_getElem _ _ hj]
    exact List.getElem_mem hj
  · intro j hj
    rw [hgd]
    exact not_le.mp (h3 j hj)

theorem chooseGreedy_none {qs : List ℚ} (h : chooseGreedy qs = none) : qs = [] := by
  cases hqs : qs with
  | nil => rfl
  | cons a as =>
    subst hqs
    obtain ⟨i, hi, _⟩ := chooseGreedy_spec (show a :: as ≠ [] by simp)
    rw [h] at hi
    cases hi

/-- Claim C8: the action encoding is a fixed deterministic table: index 0
maps to throttle on, brake off, steering centered; every index in [0, 8)
yields throttle and brake in {0, 1} with never both pedals active (the
pedal pair is in exactly one of the three states throttle / brake /
neither), and steering in {-1, 0, 1}. -/
theorem c8_action_encoding :
    actionGas 0 = 1 ∧ actionBrake 0 = 0 ∧ actionSteer 0 = 0 ∧
    (∀ a : Fin 8,
      ((actionGas a.val = 1 ∧ actionBrake a.val = 0) ∨
        (actionGas a.val = 0 ∧ actionBrake a.val = 1) ∨
        (actionGas a.val = 0 ∧ actionBrake a.val = 0)) ∧
      (actionSteer a.val = -1 ∨ actionSteer a.val = 0 ∨ actionSteer a.val = 1)) := by
  refine ⟨by norm_num [actionGas], by norm_num [actionBrake],
    by norm_num [actionSteer, actionLeft, actionRight], ?_⟩
  intro a
  fin_cases a <;>
    exact ⟨by norm_num [actionGas, actionBrake],
      by norm_num [actionSteer, actionLeft, actionRight]⟩

/-- The source direction test 1 - angle/FRAC_PI_2 < 0 holds exactly for
angles beyond +pi/2. -/
theorem flip_iff (angle : ℚ) : 1 - angle / FRAC_PI_2 < 0 ↔ FRAC_PI_2 < angle := by
  have hpos : (0 : ℚ) < FRAC_PI_2 := by norm_num [FRAC_PI_2]
  rw [sub_neg]
  exact one_lt_div hpos

/-- Claim C3 (amended): on a non-collision tick the reward equals the
shaped reward with the sign flip applied only when delta_progress is
positive and the deviation is beyond +90 degrees (not for deviations
beyond -90 degrees); a delta of +5 with deviation 0 gives the
above-threshold positive reward 2/3, and with deviation about +170
degrees (2.967 rad) the sign-flipped raw negative rate -10. -/
theorem c3_reward_shaping (min_eps max_eps eps prev meters angle : ℚ) :
    (rewardStep min_eps max_eps eps prev meters angle).1 =
      amendedRewardC3 prev meters angle ∧
    (rewardStep min_eps max_eps eps 0 5 0).1 = 2 / 3 ∧
    (rewardStep min_eps max_eps eps 0 5 (2967 / 1000)).1 = -10 := by
  refine ⟨?_, ?_, ?_⟩
  · simp only [rewardStep, amendedRewardC3, flip_iff]
  · norm_num [rewardStep, FRAC_PI_2, STEP_DURATION]
  · norm_num [rewardStep, FRAC_PI_2, STEP_DURATION]

/-- Counterexample to C3 as stated: at heading deviation -2.967 rad
(about -170 degrees, i.e. beyond 90 degrees on the other side) and
progress delta +5, the claim's either-side flip prescribes reward -10,
but the code does not flip and computes 2/3. -/
theorem c3_counterexample :
    claimRewardC3 0 5 (-2967 / 1000) = -10 ∧
    (rewardStep (1 / 100) 1 (1 / 100) 0 5 (-2967 / 1000)).1 = 2 / 3 ∧
    ¬((2 : ℚ) / 3 = -10) := by
  refine ⟨?_, ?_, by norm_num⟩
  · norm_num [claimRewardC3, FRAC_PI_2, STEP_DURATION]
  · norm_num [rewardStep, FRAC_PI_2, STEP_DURATION]

theorem tickRewardEps_snd {Q : Type} (inp : TickInput) (s : SimState Q) :
    (tickRewardEps inp s).2 = s.eps ∨ (tickRewardEps inp s).2 = s.max_eps := by
  by_cases hcr : crashedOf inp = true
  · left; simp [tickRewardEps, hcr]
  · by_cases hc : 1 - inp.angle / FRAC_PI_2 < 0 ∧ s.eps ≤ s.min_eps
    · right
      simp only [tickRewardEps, rewardStep, if_neg hcr]
      show (if 1 - inp.angle / FRAC_PI_2 < 0 ∧ s.eps ≤ s.min_eps then s.max_eps
        else s.eps) = s.max_eps
      rw [if_pos hc]
    · left
      simp only [tickRewardEps, rewardStep, if_neg hcr]
      show (if 1 - inp.angle / FRAC_PI_2 < 0 ∧ s.eps ≤ s.min_eps then s.max_eps
        else s.eps) = s.eps
      rw [if_neg hc]

/-- Claim C2 (refuted by the code): whenever the exploration branch is
taken, the chosen action index is strictly below ACTION_SIZE - 1 = 7, so
index 7 is never selectable (the source draws from gen_range(0..7)). -/
theorem c2_exploration_excludes_last {Q : Type} (fw : Q → Obs → Fin ACTION_SIZE → ℚ)
    (upd : Q → Q) (now r : ℚ) (u : ℕ) (inp : TickInput) (s : SimState Q)
    (h1 : s.seconds < now) (h2 : r < s.eps) (h3 : r < s.max_eps) :
    ∀ s1, dqnSystem fw upd now r u inp s = some s1 → s1.carDqn.prev_action < 7 := by
  intro s1 hs
  have hre : r < (tickRewardEps inp s).2 := by
    rcases tickRewardEps_snd inp s with h | h <;> rw [h] <;> assumption
  simp only [dqnSystem] at hs
  rw [if_pos h1, if_pos hre, Option.map_some'] at hs
  rw [Option.some_inj] at hs
  rw [← hs]
  show u % (ACTION_SIZE - 1) < 7
  exact Nat.mod_lt u (by norm_num [ACTION_SIZE])

/-- Trivial concrete network over the unit type, for witnesses. -/
def fw0 : Unit → Obs → Fin ACTION_SIZE → ℚ := fun _ _ _ => 0

/-- Concrete tick input, for witnesses: no collision, zero progress. -/
def inp0 : TickInput := ⟨0, 0, 0, [], []⟩

/-- Concrete subsystem state, for witnesses: fresh resource values. -/
def s0 : SimState Unit :=
  ⟨0, 0, (), (), ReplayBuffer.new, 1, 1, 1 / 100, ⟨[], 0, 0, 0⟩, 0, 0, 0⟩

/-- Witness for c2_exploration_excludes_last at a concrete state. -/
theorem c2_exploration_excludes_last_witness :
    s0.seconds < 1 ∧ (0 : ℚ) < s0.eps ∧ (0 : ℚ) < s0.max_eps ∧
    (∀ s1, dqnSystem fw0 id 1 0 7 inp0 s0 = some s1 → s1.carDqn.prev_action < 7) :=
  ⟨by norm_num [s0], by norm_num [s0], by norm_num [s0],
    c2_exploration_excludes_last fw0 id 1 0 7 inp0 s0 (by norm_num [s0])
      (by norm_num [s0]) (by norm_num [s0])⟩

theorem dqnSystem_skip {Q : Type} (fw : Q → Obs → Fin ACTION_SIZE → ℚ) (upd : Q → Q)
    (now r : ℚ) (u : ℕ) (inp : TickInput) (s : SimState Q) (h : ¬s.seconds < now) :
    dqnSystem fw upd now r u inp s = some s := by
  simp only [dqnSystem]
  rw [if_neg h]

theorem dqnSystem_run {Q : Type} (fw : Q → Obs → Fin ACTION_SIZE → ℚ) (upd : Q → Q)
    (now r : ℚ) (u : ℕ) (inp : TickInput) (s : SimState Q) (h1 : s.seconds < now) (a : ℕ)
    (ha : (if r < (tickRewardEps inp s).2 then some (u % (ACTION_SIZE - 1))
      else chooseGreedy (List.ofFn (fw s.qn (obsOf inp)))) = some a) :
    dqnSystem fw upd now r u inp s = some
      { seconds := now + STEP_DURATION,
        step := if BATCH_SIZE < s.rb.len then s.step + 1 else s.step,
        qn := if BATCH_SIZE + 1 < s.rb.len then upd s.qn else s.qn,
        tqn := if (BATCH_SIZE + 1 < s.rb.len) ∧
            (if BATCH_SIZE < s.rb.len then s.step + 1 else s.step) % SYNC_INTERVAL_STEPS = 0
          then (if BATCH_SIZE + 1 < s.rb.len then upd s.qn else s.qn) else s.tqn,
        rb := s.rb.store BUFFER_SIZE s.carDqn.prev_obs s.carDqn.prev_action
          (tickRewardEps inp s).1 (obsOf inp),
        eps := if BATCH_SIZE + 1 < s.rb.len then
            (if (tickRewardEps inp s).2 ≤ s.min_eps then s.min_eps
              else (tickRewardEps inp s).2 - DECAY)
          else (tickRewardEps inp s).2,
        max_eps := s.max_eps, min_eps := s.min_eps,
        carDqn := ⟨obsOf inp, a, (tickRewardEps inp s).1, inp.meters⟩,
        gas := actionGas a, brake := actionBrake a, steering := actionSteer a } := by
  simp only [dqnSystem]
  rw [if_pos h1, ha, Option.map_some']

theorem actionOpt_isSome {Q : Type} (fw : Q → Obs → Fin ACTION_SIZE → ℚ) (q : Q)
    (obs : Obs) (r e : ℚ) (u : ℕ) :
    ∃ a, (if r < e then some (u % (ACTION_SIZE - 1))
      else chooseGreedy (List.ofFn (fw q obs))) = some a := by
  by_cases h : r < e
  · exact ⟨u % (ACTION_SIZE - 1), by rw [if_pos h]⟩
  · have hne : List.ofFn (fw q obs) ≠ [] := by
      intro hnil
      have hlen := congrArg List.length hnil
      simp [ACTION_SIZE] at hlen
    obtain ⟨i, hi, _⟩ := chooseGreedy_spec hne
    exact ⟨i, by rw [if_neg h, hi]⟩

theorem tickRewardEps_crash {Q : Type} (inp : TickInput) (s : SimState Q)
    (h : crashedOf inp = true) : tickRewardEps inp s = (-10, s.eps) := by
  simp [tickRewardEps, h]

/-- Claim C5: on every eligible tick with the collision flag true, the
reward is the fixed constant -10 regardless of progress, previous progress
and heading: both the per-agent memory and the transition stored into the
replay buffer carry reward -10, with no progress-based shaping. -/
theorem c5_collision_reward {Q : Type} (fw : Q → Obs → Fin ACTION_SIZE → ℚ) (upd : Q → Q)
    (now r : ℚ) (u : ℕ) (inp : TickInput) (s : SimState Q)
    (h1 : s.seconds < now) (h2 : crashedOf inp = true)
    (hwf : wellFormed BUFFER_SIZE s.rb) :
    ∀ s1, dqnSystem fw upd now r u inp s = some s1 →
      s1.carDqn.prev_reward = -10 ∧
      s1.rb.slotAt (s.rb.i % BUFFER_SIZE) =
        some (s.carDqn.prev_obs, s.carDqn.prev_action, -10, obsOf inp) := by
  intro s1 hs
  obtain ⟨a, ha⟩ := actionOpt_isSome fw s.qn (obsOf inp) r (tickRewardEps inp s).2 u
  rw [dqnSystem_run fw upd now r u inp s h1 a ha, Option.some_inj] at hs
  rw [← hs]
  refine ⟨?_, ?_⟩
  · show (tickRewardEps inp s).1 = -10
    rw [tickRewardEps_crash inp s h2]
  · show (s.rb.store BUFFER_SIZE s.carDqn.prev_obs s.carDqn.prev_action
      (tickRewardEps inp s).1 (obsOf inp)).slotAt (s.rb.i % BUFFER_SIZE) = _
    rw [tickRewardEps_crash inp s h2]
    exact store_slot_new hwf (by norm_num [BUFFER_SIZE]) _ _ _ _

/-- Concrete tick input with a non-road collision, for witnesses. -/
def inpC : TickInput := ⟨0, 0, 0, [], [false]⟩

/-- Witness for c5_collision_reward at a concrete crashed tick. -/
theorem c5_collision_reward_witness :
    s0.seconds < 1 ∧ crashedOf inpC = true ∧ wellFormed BUFFER_SIZE s0.rb ∧
    (∀ s1, dqnSystem fw0 id 1 0 0 inpC s0 = some s1 →
      s1.carDqn.prev_reward = -10 ∧
      s1.rb.slotAt (s0.rb.i % BUFFER_SIZE) =
        some (s0.carDqn.prev_obs, s0.carDqn.prev_action, -10, obsOf inpC)) :=
  ⟨by norm_num [s0], by decide, ⟨rfl, rfl, rfl, rfl⟩,
    c5_collision_reward fw0 id 1 0 0 inpC s0 (by norm_num [s0]) (by decide)
      ⟨rfl, rfl, rfl, rfl⟩⟩

/-- Claim C10: on an eligible collision tick epsilon can only stay or
decay, never increase: the anomaly reset to max_eps is unreachable inside
the collision branch, so the end-of-tick epsilon is at most the
start-of-tick epsilon (given the invariant min_eps ≤ eps). -/
theorem c10_collision_eps_monotone {Q : Type} (fw : Q → Obs → Fin ACTION_SIZE → ℚ)
    (upd : Q → Q) (now r : ℚ) (u : ℕ) (inp : TickInput) (s : SimState Q)
    (h1 : s.seconds < now) (h2 : crashedOf inp = true) (h3 : s.min_eps ≤ s.eps) :
    ∀ s1, dqnSystem fw upd now r u inp s = some s1 → s1.eps ≤ s.eps := by
  intro s1 hs
  obtain ⟨a, ha⟩ := actionOpt_isSome fw s.qn (obsOf inp) r (tickRewardEps inp s).2 u
  rw [dqnSystem_run fw upd now r u inp s h1 a ha, Option.some_inj] at hs
  rw [← hs]
  show (if BATCH_SIZE + 1 < s.rb.len then
      (if (tickRewardEps inp s).2 ≤ s.min_eps then s.min_eps
        else (tickRewardEps inp s).2 - DECAY)
    else (tickRewardEps inp s).2) ≤ s.eps
  have he : (tickRewardEps inp s).2 = s.eps := by rw [tickRewardEps_crash inp s h2]
  rw [he]
  by_cases ht : BATCH_SIZE + 1 < s.rb.len
  · rw [if_pos ht]
    by_cases hd : s.eps ≤ s.min_eps
    · rw [if_pos hd]; exact h3
    · rw [if_neg hd]
      have : (0 : ℚ) < DECAY := by norm_num [DECAY]
      linarith
  · rw [if_neg ht]

/-- Witness for c10_collision_eps_monotone at a concrete crashed tick. -/
theorem c10_collision_eps_monotone_witness :
    s0.seconds < 1 ∧ crashedOf inpC = true ∧ s0.min_eps ≤ s0.eps ∧
    (∀ s1, dqnSystem fw0 id 1 0 0 inpC s0 = some s1 → s1.eps ≤ s0.eps) :=
  ⟨by norm_num [s0], by decide, by norm_num [s0],
    c10_collision_eps_monotone fw0 id 1 0 0 inpC s0 (by norm_num [s0]) (by decide)
      (by norm_num [s0])⟩

theorem tickRewardEps_snd_noreset {Q : Type} (inp : TickInput) (s : SimState Q)
    (h : ¬(1 - inp.angle / FRAC_PI_2 < 0 ∧ s.eps ≤ s.min_eps)) :
    (tickRewardEps inp s).2 = s.eps := by
  by_cases hcr : crashedOf inp = true
  · simp [tickRewardEps, hcr]
  · simp only [tickRewardEps, rewardStep, if_neg hcr]
    show (if 1 - inp.angle / FRAC_PI_2 < 0 ∧ s.eps ≤ s.min_eps then s.max_eps
      else s.eps) = s.eps
    rw [if_neg h]

theorem dqnSystem_eps {Q : Type} (fw : Q → Obs → Fin ACTION_SIZE → ℚ) (upd : Q → Q)
    (now r : ℚ) (u : ℕ) (inp : TickInput) (s : SimState Q) (h1 : s.seconds < now) :
    ∀ s1, dqnSystem fw upd now r u inp s = some s1 →
      s1.eps = if BATCH_SIZE + 1 < s.rb.len then
          (if (tickRewardEps inp s).2 ≤ s.min_eps then s.min_eps
            else (tickRewardEps inp s).2 - DECAY)
        else (tickRewardEps inp s).2 := by
  intro s1 hs
  obtain ⟨a, ha⟩ := actionOpt_isSome fw s.qn (obsOf inp) r (tickRewardEps inp s).2 u
  rw [dqnSystem_run fw upd now r u inp s h1 a ha, Option.some_inj] at hs
  rw [← hs]

/-- Claim C4 (amended): on an eligible non-collision tick with no training
pass pending, the end-of-tick epsilon equals max_eps exactly when the
heading direction is flipped (1 - angle/FRAC_PI_2 < 0) and epsilon is at
or below its floor, regardless of the sign of delta_progress; otherwise
epsilon is unchanged. -/
theorem c4_eps_reset {Q : Type} (fw : Q → Obs → Fin ACTION_SIZE → ℚ) (upd : Q → Q)
    (now r : ℚ) (u : ℕ) (inp : TickInput) (s : SimState Q)
    (h1 : s.seconds < now) (h2 : crashedOf inp = false)
    (h3 : ¬(BATCH_SIZE + 1 < s.rb.len)) :
    ∀ s1, dqnSystem fw upd now r u inp s = some s1 →
      s1.eps = if 1 - inp.angle / FRAC_PI_2 < 0 ∧ s.eps ≤ s.min_eps then s.max_eps
        else s.eps := by
  intro s1 hs
  rw [dqnSystem_eps fw upd now r u inp s h1 s1 hs, if_neg h3]
  have hcr : ¬(crashedOf inp = true) := by rw [h2]; exact Bool.false_ne_true
  simp only [tickRewardEps, rewardStep, if_neg hcr]

/-- Concrete input for the C4 counterexample: heading reversed (angle = 3
rad is beyond pi/2) and no collision. -/
def inpB : TickInput := ⟨0, 3, 0, [], []⟩

/-- Concrete state for the C4 counterexample: epsilon at its floor and
prev_progress = 1, so the progress delta is negative. -/
def s4 : SimState Unit :=
  ⟨0, 0, (), (), ReplayBuffer.new, 1 / 100, 1, 1 / 100, ⟨[], 0, 0, 1⟩, 0, 0, 0⟩

theorem s4_rewardEps : (tickRewardEps inpB s4).2 = 1 := by
  norm_num [tickRewardEps, crashedOf, inpB, s4, rewardStep, FRAC_PI_2]

/-- Counterexample to C4 as stated: on a non-collision tick with a
NEGATIVE progress delta (-1), reversed heading and epsilon at its floor,
the code still resets epsilon to max_eps = 1; the claim says the reset
requires positive delta_progress. -/
theorem c4_counterexample :
    inpB.meters - s4.carDqn.prev_progress = -1 ∧ s4.eps = 1 / 100 ∧
    Option.map (fun s1 => SimState.eps s1) (dqnSystem fw0 id 1 0 0 inpB s4) = some 1 := by
  refine ⟨by norm_num [inpB, s4], by norm_num [s4], ?_⟩
  have h1 : s4.seconds < 1 := by norm_num [s4]
  have ha : (if (0 : ℚ) < (tickRewardEps inpB s4).2 then some (0 % (ACTION_SIZE - 1))
      else chooseGreedy (List.ofFn (fw0 s4.qn (obsOf inpB)))) = some 0 := by
    rw [s4_rewardEps]
    norm_num
  rw [dqnSystem_run fw0 id 1 0 0 inpB s4 h1 0 ha, Option.map_some', Option.some_inj]
  show (if BATCH_SIZE + 1 < s4.rb.len then
      (if (tickRewardEps inpB s4).2 ≤ s4.min_eps then s4.min_eps
        else (tickRewardEps inpB s4).2 - DECAY)
    else (tickRewardEps inpB s4).2) = 1
  rw [if_neg (by norm_num [BATCH_SIZE, s4, ReplayBuffer.len, ReplayBuffer.new]), s4_rewardEps]

/-- Witness for c4_eps_reset at a concrete non-collision tick. -/
theorem c4_eps_reset_witness :
    s0.seconds < 1 ∧ crashedOf inp0 = false ∧ ¬(BATCH_SIZE + 1 < s0.rb.len) ∧
    (∀ s1, dqnSystem fw0 id 1 0 0 inp0 s0 = some s1 →
      s1.eps = if 1 - inp0.angle / FRAC_PI_2 < 0 ∧ s0.eps ≤ s0.min_eps then s0.max_eps
        else s0.eps) :=
  ⟨by norm_num [s0], by decide, by decide,
    c4_eps_reset fw0 id 1 0 0 inp0 s0 (by norm_num [s0]) (by decide) (by decide)⟩

/-- Claim C6: on the exploitation branch (the uniform draw r is at least
the decision-time epsilon, i.e. the epsilon the source compares against
after any reset) the chosen action is the first index attaining the
maximum of the network output (ties broken by the smallest index); the
selection never silently continues when no index attains the maximum
(chooseGreedy is some on the length-8 output); and on the vector
[0.1, 0.9, 0.3, 0, ...] index 1 is selected. -/
theorem c6_exploitation_argmax {Q : Type} (fw : Q → Obs → Fin ACTION_SIZE → ℚ)
    (upd : Q → Q) (now r : ℚ) (u : ℕ) (inp : TickInput) (s : SimState Q)
    (h1 : s.seconds < now) (h2 : (tickRewardEps inp s).2 ≤ r) :
    (∃ i, chooseGreedy (List.ofFn (fw s.qn (obsOf inp))) = some i ∧ i < ACTION_SIZE ∧
      (∀ j, j < ACTION_SIZE →
        (List.ofFn (fw s.qn (obsOf inp))).getD j 0 ≤
          (List.ofFn (fw s.qn (obsOf inp))).getD i 0) ∧
      (∀ j, j < i →
        (List.ofFn (fw s.qn (obsOf inp))).getD j 0 <
          (List.ofFn (fw s.qn (obsOf inp))).getD i 0) ∧
      (∀ s1, dqnSystem fw upd now r u inp s = some s1 → s1.carDqn.prev_action = i)) ∧
    chooseGreedy [1 / 10, 9 / 10, 3 / 10, 0, 0, 0, 0, 0] = some 1 := by
  have hnr : ¬(r < (tickRewardEps inp s).2) := not_lt.mpr h2
  have hne : List.ofFn (fw s.qn (obsOf inp)) ≠ [] := by
    intro hnil
    have hlen := congrArg List.length hnil
    simp [ACTION_SIZE] at hlen
  obtain ⟨i, hi, hilen, hub, hfirst⟩ := chooseGreedy_spec hne
  rw [List.length_ofFn] at hilen hub
  refine ⟨⟨i, hi, hilen, hub, hfirst, ?_⟩, ?_⟩
  · intro s1 hs
    rw [dqnSystem_run fw upd now r u inp s h1 i (by rw [if_neg hnr]; exact hi),
      Option.some_inj] at hs
    rw [← hs]
  · norm_num [chooseGreedy, listMax, position, max_def]

/-- Concrete network returning the C6 example Q-values, for witnesses. -/
def fwEx : Unit → Obs → Fin ACTION_SIZE → ℚ :=
  fun _ _ k => [1 / 10, 9 / 10, 3 / 10, 0, 0, 0, 0, 0].getD k.val 0

/-- Concrete state with epsilon decayed to its floor (a reachable
configuration: min_eps = 0.01, max_eps = 1), for the C6 witness. -/
def sD : SimState Unit :=
  ⟨0, 0, (), (), ReplayBuffer.new, 1 / 100, 1, 1 / 100, ⟨[], 0, 0, 0⟩, 0, 0, 0⟩

/-- Witness for c6_exploitation_argmax: an exploitation tick where the
draw r = 1/2 is at least the decision-time epsilon 1/100. -/
theorem c6_exploitation_argmax_witness :
    sD.seconds < 1 ∧ (tickRewardEps inp0 sD).2 ≤ 1 / 2 ∧
    ((∃ i, chooseGreedy (List.ofFn (fwEx sD.qn (obsOf inp0))) = some i ∧ i < ACTION_SIZE ∧
      (∀ j, j < ACTION_SIZE →
        (List.ofFn (fwEx sD.qn (obsOf inp0))).getD j 0 ≤
          (List.ofFn (fwEx sD.qn (obsOf inp0))).getD i 0) ∧
      (∀ j, j < i →
        (List.ofFn (fwEx sD.qn (obsOf inp0))).getD j 0 <
          (List.ofFn (fwEx sD.qn (obsOf inp0))).getD i 0) ∧
      (∀ s1, dqnSystem fwEx id 1 (1 / 2) 0 inp0 sD = some s1 →
        s1.carDqn.prev_action = i)) ∧
    chooseGreedy [1 / 10, 9 / 10, 3 / 10, 0, 0, 0, 0, 0] = some 1) :=
  ⟨by norm_num [sD],
    by norm_num [tickRewardEps, crashedOf, inp0, sD, rewardStep, FRAC_PI_2],
    c6_exploitation_argmax fwEx id 1 (1 / 2) 0 inp0 sD (by norm_num [sD])
      (by norm_num [tickRewardEps, crashedOf, inp0, sD, rewardStep, FRAC_PI_2])⟩

theorem epsInv_floor {e : ℚ} (h : ∃ k : ℕ, k ≤ 990 ∧ e = 1 - (k : ℚ) / 1000) :
    1 / 100 ≤ e := by
  obtain ⟨k, hk, rfl⟩ := h
  have hq : (k : ℚ) ≤ 990 := by exact_mod_cast hk
  linarith

/-- Claim C7: with the constructed constants (min_eps = 0.01,
max_eps = 1) and epsilon in the reachable set 1 - k/1000 with k ≤ 990, an
eligible tick preserves that set, keeps epsilon at or above min_eps, and
absent the anomaly reset epsilon is non-increasing; when a training pass
runs and epsilon is above the floor it decreases by exactly DECAY. -/
theorem c7_eps_decay {Q : Type} (fw : Q → Obs → Fin ACTION_SIZE → ℚ) (upd : Q → Q)
    (now r : ℚ) (u : ℕ) (inp : TickInput) (s : SimState Q)
    (h1 : s.seconds < now) (hmin : s.min_eps = 1 / 100) (hmax : s.max_eps = 1)
    (hinv : ∃ k : ℕ, k ≤ 990 ∧ s.eps = 1 - (k : ℚ) / 1000) :
    ∀ s1, dqnSystem fw upd now r u inp s = some s1 →
      (∃ k : ℕ, k ≤ 990 ∧ s1.eps = 1 - (k : ℚ) / 1000) ∧
      s.min_eps ≤ s1.eps ∧
      (¬(1 - inp.angle / FRAC_PI_2 < 0 ∧ s.eps ≤ s.min_eps) →
        s1.eps ≤ s.eps ∧
        (BATCH_SIZE + 1 < s.rb.len → s.min_eps < s.eps → s1.eps = s.eps - DECAY)) := by
  intro s1 hs
  have heps := dqnSystem_eps fw upd now r u inp s h1 s1 hs
  obtain ⟨k, hk, hke⟩ := hinv
  have hinv1 : ∃ k : ℕ, k ≤ 990 ∧ s1.eps = 1 - (k : ℚ) / 1000 := by
    rcases tickRewardEps_snd inp s with he | he
    all_goals rw [heps]
    · by_cases ht : BATCH_SIZE + 1 < s.rb.len
      · rw [if_pos ht]
        by_cases hd : (tickRewardEps inp s).2 ≤ s.min_eps
        · rw [if_pos hd, hmin]
          exact ⟨990, le_refl _, by norm_num⟩
        · rw [if_neg hd, he]
          rw [he, hke, hmin] at hd
          have hklt : (k : ℚ) < 990 := by
            linarith [not_le.mp hd]
          have hkn : k + 1 ≤ 990 := by
            have : k < 990 := by exact_mod_cast hklt
            omega
          refine ⟨k + 1, hkn, ?_⟩
          rw [hke]
          push_cast
          ring_nf
          norm_num [DECAY]
          ring_nf
      · rw [if_neg ht, he]
        exact ⟨k, hk, hke⟩
    · rw [he, hmax]
      by_cases ht : BATCH_SIZE + 1 < s.rb.len
      · rw [if_pos ht]
        by_cases hd : (1 : ℚ) ≤ s.min_eps
        · rw [if_pos hd, hmin]
          exact ⟨990, le_refl _, by norm_num⟩
        · rw [if_neg hd]
          exact ⟨1, by omega, by norm_num [DECAY]⟩
      · rw [if_neg ht]
        exact ⟨0, by omega, by norm_num⟩
  refine ⟨hinv1, by rw [hmin]; exact epsInv_floor hinv1, ?_⟩
  intro hnr
  have hee : (tickRewardEps inp s).2 = s.eps := tickRewardEps_snd_noreset inp s hnr
  constructor
  · rw [heps, hee]
    by_cases ht : BATCH_SIZE + 1 < s.rb.len
    · rw [if_pos ht]
      by_cases hd : s.eps ≤ s.min_eps
      · rw [if_pos hd, hmin]
        exact epsInv_floor ⟨k, hk, hke⟩
      · rw [if_neg hd]
        have hdp : (0 : ℚ) < DECAY := by norm_num [DECAY]
        linarith
    · rw [if_neg ht]
  · intro ht hlt
    rw [heps, hee, if_pos ht, if_neg (not_le.mpr hlt)]

/-- Witness for c7_eps_decay at the freshly constructed state. -/
theorem c7_eps_decay_witness :
    s0.seconds < 1 ∧ s0.min_eps = 1 / 100 ∧ s0.max_eps = 1 ∧
    (∃ k : ℕ, k ≤ 990 ∧ s0.eps = 1 - (k : ℚ) / 1000) ∧
    (∀ s1, dqnSystem fw0 id 1 0 0 inp0 s0 = some s1 →
      (∃ k : ℕ, k ≤ 990 ∧ s1.eps = 1 - (k : ℚ) / 1000) ∧
      s0.min_eps ≤ s1.eps ∧
      (¬(1 - inp0.angle / FRAC_PI_2 < 0 ∧ s0.eps ≤ s0.min_eps) →
        s1.eps ≤ s0.eps ∧
        (BATCH_SIZE + 1 < s0.rb.len → s0.min_eps < s0.eps → s1.eps = s0.eps - DECAY))) :=
  ⟨by norm_num [s0], by norm_num [s0], by norm_num [s0],
    ⟨0, by omega, by norm_num [s0]⟩,
    c7_eps_decay fw0 id 1 0 0 inp0 s0 (by norm_num [s0]) (by norm_num [s0])
      (by norm_num [s0]) ⟨0, by omega, by norm_num [s0]⟩⟩

/-- Claim C9 (amended): when the current time has not passed the
watermark, the tick changes nothing at all (the whole state, including
buffer, networks, epsilon, step counter, agent memory and actuators, is
returned unchanged); when it has, the pipeline runs exactly once (one
store) and the watermark is set to now + STEP_DURATION, an advance of
more than the step duration past the old watermark. -/
theorem c9_tick_scheduler {Q : Type} (fw : Q → Obs → Fin ACTION_SIZE → ℚ) (upd : Q → Q)
    (now r : ℚ) (u : ℕ) (inp : TickInput) (s : SimState Q) :
    (¬(s.seconds < now) → dqnSystem fw upd now r u inp s = some s) ∧
    (s.seconds < now → ∃ s1, dqnSystem fw upd now r u inp s = some s1 ∧
      s1.seconds = now + STEP_DURATION ∧
      s.seconds + STEP_DURATION < s1.seconds ∧
      s1.rb.i = s.rb.i + 1) := by
  constructor
  · exact fun h => dqnSystem_skip fw upd now r u inp s h
  · intro h1
    obtain ⟨a, ha⟩ := actionOpt_isSome fw s.qn (obsOf inp) r (tickRewardEps inp s).2 u
    refine ⟨_, dqnSystem_run fw upd now r u inp s h1 a ha, rfl, ?_, ?_⟩
    · show s.seconds + STEP_DURATION < now + STEP_DURATION
      exact add_lt_add_right h1 STEP_DURATION
    · show (s.rb.store BUFFER_SIZE s.carDqn.prev_obs s.carDqn.prev_action
        (tickRewardEps inp s).1 (obsOf inp)).i = s.rb.i + 1
      exact store_i BUFFER_SIZE s.rb _ _ _ _

/-- Counterexample to C9 as stated: with watermark 0 and current time
0.3, the new watermark is 0.3 + 0.5 = 0.8, not the old watermark plus the
step duration (0.5): the watermark does not advance BY the fixed step
duration. -/
theorem c9_counterexample :
    s0.seconds = 0 ∧
    Option.map (fun s1 => SimState.seconds s1) (dqnSystem fw0 id (3 / 10) 0 0 inp0 s0) =
      some (4 / 5) ∧
    ¬((4 : ℚ) / 5 = 0 + STEP_DURATION) := by
  refine ⟨rfl, ?_, by norm_num [STEP_DURATION]⟩
  have h1 : s0.seconds < 3 / 10 := by norm_num [s0]
  have hre : (tickRewardEps inp0 s0).2 = 1 := by
    norm_num [tickRewardEps, crashedOf, inp0, s0, rewardStep, FRAC_PI_2]
  have ha : (if (0 : ℚ) < (tickRewardEps inp0 s0).2 then some (0 % (ACTION_SIZE - 1))
      else chooseGreedy (List.ofFn (fw0 s0.qn (obsOf inp0)))) = some 0 := by
    rw [hre]
    norm_num
  rw [dqnSystem_run fw0 id (3 / 10) 0 0 inp0 s0 h1 0 ha, Option.map_some', Option.some_inj]
  show (3 : ℚ) / 10 + STEP_DURATION = 4 / 5
  norm_num [STEP_DURATION]

/-- Witness for c9_tick_scheduler: both branches at concrete instants. -/
theorem c9_tick_scheduler_witness :
    (¬(s0.seconds < 0) ∧ dqnSystem fw0 id 0 0 0 inp0 s0 = some s0) ∧
    (s0.seconds < 1 ∧ ∃ s1, dqnSystem fw0 id 1 0 0 inp0 s0 = some s1 ∧
      s1.seconds = 1 + STEP_DURATION ∧
      s0.seconds + STEP_DURATION < s1.seconds ∧
      s1.rb.i = s0.rb.i + 1) :=
  ⟨⟨by norm_num [s0], (c9_tick_scheduler fw0 id 0 0 0 inp0 s0).1 (by norm_num [s0])⟩,
    ⟨by norm_num [s0], (c9_tick_scheduler fw0 id 1 0 0 inp0 s0).2 (by norm_num [s0])⟩⟩

end RacingDqn
